import Mathlib

set_option maxRecDepth 16384

/-!
Verification development for the cymbal-coffee-backend service
(`data-driven-decaf.go` plus the bond HTTP client file).

The Go program is embedded shallowly:
* database rows become a `CoffeeRow` structure (columns `id`, `name`,
  `price` of the seeded `coffee` table);
* a row whose `rows.Scan` / `rows.Values` call fails is an
  `Except.error`, a successfully scanned row an `Except.ok`;
* Go `string` is Lean `String`, Go `int` is Lean `Int` with an explicit
  64-bit range check where `strconv.Atoi` performs one;
* functions keep the Go names where possible.
-/

/-- Column values of one row of the seeded `coffee` table, as scanned by
the Go code (`rows.Scan(&i, &bean, &price)` in `DDDMySQLConnect`,
`rows.Values()` positions 0,1,2 in `DDDPostgresRows`). -/
structure CoffeeRow where
  id : Int
  name : String
  price : String
deriving Repr, DecidableEq

/-- The JSON payload struct `DDDBondPayload` of the Go file, with the Go
zero values as defaults (fresh `var result DDDBondPayload`). `Total` is
a Go 64-bit `int`; every addition into it below goes through
`int64Wrap`, so the field always holds a value in the `int64` range. -/
structure DDDBondPayload where
  magicCoffee : String := ""
  total : Int := 0
  project : String := ""
  db : String := ""
deriving Repr, DecidableEq

/-- Digit run to a number, `strconv.Atoi` style: the whole character list
must be one or more decimal digits; the value accumulates left to right
as `a * 10 + digit`. -/
def parseDigits (cs : List Char) : Option Nat :=
  if cs = [] then none
  else if cs.all Char.isDigit then
    some (cs.foldl (fun a c => a * 10 + (c.toNat - 48)) 0)
  else none

/-- Smallest value of Go's 64-bit `int`. -/
def int64Min : Int := -9223372036854775808

/-- Largest value of Go's 64-bit `int`. -/
def int64Max : Int := 9223372036854775807

/-- Two's-complement normalization into the 64-bit `int` range: the
result of every Go `int` arithmetic operation, which wraps on
overflow. -/
def int64Wrap (x : Int) : Int :=
  (x + 9223372036854775808) % 18446744073709551616 - 9223372036854775808

/-- Embeds Go `strconv.Atoi`: optional leading sign, then digits; the
result must fit in a 64-bit `int`, otherwise `Atoi` reports `ErrRange`
and the caller sees a non-nil error (modelled as `none`). -/
def goAtoiChars (cs : List Char) : Option Int :=
  match cs with
  | [] => none
  | c :: rest =>
    if c = '+' then
      (parseDigits rest).bind fun n =>
        if (n : Int) ≤ int64Max then some (n : Int) else none
    else if c = '-' then
      (parseDigits rest).bind fun n =>
        if int64Min ≤ -(n : Int) then some (-(n : Int)) else none
    else
      (parseDigits (c :: rest)).bind fun n =>
        if (n : Int) ≤ int64Max then some (n : Int) else none

/-- Embeds Go `strings.Split(s, ".")[0]`: the characters before the
first `'.'` (the whole string when no `'.'` occurs). -/
def goSplitDot (s : String) : List Char :=
  s.toList.takeWhile (fun c => c ≠ '.')

/-- The price parsing both row loops perform:
`strconv.Atoi(strings.Split(price, ".")[0])`, `none` when `err != nil`. -/
def parsePrice (price : String) : Option Int :=
  goAtoiChars (goSplitDot price)

/-- The row loop of `DDDPostgresRows` (data-driven-decaf.go:231-249):
`result` and the counter `i` are the loop state; at `i == 50` the row's
name column overwrites `MagicCoffee`; a price that fails to parse is
skipped by `continue`, which also skips the `i++`; a failing
`rows.Values()` call aborts with its error. `result.Total += p` is a Go
64-bit `int` addition, so it wraps (`int64Wrap`). -/
def pgLoop : List (Except String CoffeeRow) → DDDBondPayload → Nat → Except String DDDBondPayload
  | [], result, _ => Except.ok result
  | Except.error e :: _, _, _ => Except.error e
  | Except.ok row :: rest, result, i =>
    let result1 := if i = 50 then { result with magicCoffee := row.name } else result
    match parsePrice row.price with
    | none => pgLoop rest result1 i
    | some p => pgLoop rest { result1 with total := int64Wrap (result1.total + p) } (i + 1)

/-- `DDDPostgresRows` (data-driven-decaf.go:223-251) after a successful
`pool.Query`: runs the row loop from a zero payload and `i := 0`. -/
def DDDPostgresRows (rows : List (Except String CoffeeRow)) : Except String DDDBondPayload :=
  pgLoop rows {} 0

/-- The row loop of `DDDMySQLConnect` (data-driven-decaf.go:114-129):
no position counter exists; the sentinel test is `i == 51` where `i` is
the row's scanned `id` column; a failing `rows.Scan` aborts with its
error; a price that fails to parse is skipped by `continue`;
`result.Total += p` wraps as a Go 64-bit `int` addition. -/
def mysqlLoop : List (Except String CoffeeRow) → DDDBondPayload → Except String DDDBondPayload
  | [], result => Except.ok result
  | Except.error e :: _, _ => Except.error e
  | Except.ok row :: rest, result =>
    let result1 := if row.id = 51 then { result with magicCoffee := row.name } else result
    match parsePrice row.price with
    | none => mysqlLoop rest result1
    | some p => mysqlLoop rest { result1 with total := int64Wrap (result1.total + p) }

/-- The row-processing part of `DDDMySQLConnect`
(data-driven-decaf.go:109-130), after a successful `db.Query`. -/
def DDDMySQLConnectRows (rows : List (Except String CoffeeRow)) : Except String DDDBondPayload :=
  mysqlLoop rows {}

/-- The process environment as read by `dbConnectionInfo` plus the
process-wide default project id `cfg.ProjectID`. An unset environment
variable is the empty string, exactly as `os.Getenv` reports it. -/
structure GoEnv where
  dbUser : String
  dbPass : String
  dbName : String
  dbRegion : String
  dbCluster : String
  dbInstance : String
  dbProject : String
  cfgProjectID : String
deriving Repr, DecidableEq

/-- The `DBConnectionInfo` struct of the Go file. -/
structure DBConnectionInfo where
  user : String
  pass : String
  dbName : String
  dbRegion : String
  dbCluster : String
  dbInstance : String
  projectID : String
deriving Repr, DecidableEq

/-- `dbConnectionInfo` (data-driven-decaf.go:40-62): one collective
check that user, pass, instance and db name are non-empty, a single
error message when any is empty, and the `cfg.ProjectID` fallback when
`DB_PROJECT` is unset. -/
def dbConnectionInfo (env : GoEnv) : Except String DBConnectionInfo :=
  if env.dbUser = "" ∨ env.dbPass = "" ∨ env.dbInstance = "" ∨ env.dbName = "" then
    Except.error "ensure required environment variables are set"
  else
    Except.ok
      { user := env.dbUser
        pass := env.dbPass
        dbName := env.dbName
        dbRegion := env.dbRegion
        dbCluster := env.dbCluster
        dbInstance := env.dbInstance
        projectID := if env.dbProject = "" then env.cfgProjectID else env.dbProject }

/-- `DDDPostgresConnection` (data-driven-decaf.go:134-147): loads the
connection info and renders the pgx DSN. (`pgxpool.ParseConfig` is an
external library call; its parse of this fixed-shape DSN is modelled as
succeeding, which is the path every claim concerns.) -/
def DDDPostgresConnection (env : GoEnv) : Except String String :=
  (dbConnectionInfo env).map fun info =>
    "user=" ++ info.user ++ " password=" ++ info.pass ++ " dbname=" ++ info.dbName ++ " sslmode=disable"

/-- Outcome of the connection-building phase of `DDDAlloyConnect`:
either a configuration error, the dedicated cluster error, or the point
where the code proceeds to dial the database with the rendered
AlloyDB instance path. -/
inductive AlloyOutcome where
  | configError (msg : String)
  | clusterError (msg : String)
  | dialConnect (target : String)
deriving Repr, DecidableEq

/-- The decision structure of `DDDAlloyConnect`
(data-driven-decaf.go:150-188): config load, then the `DB_CLUSTER`
check at lines 169-172 (error text `expected db cluster to be set`),
and only past that check does `pgxpool.ConnectConfig` run, with the
dial target of line 176. -/
def DDDAlloyConnect (env : GoEnv) : AlloyOutcome :=
  match DDDPostgresConnection env with
  | Except.error e => AlloyOutcome.configError e
  | Except.ok _ =>
    match dbConnectionInfo env with
    | Except.error e => AlloyOutcome.configError e
    | Except.ok info =>
      if info.dbCluster = "" then AlloyOutcome.clusterError "expected db cluster to be set"
      else
        AlloyOutcome.dialConnect
          ("projects/" ++ info.projectID ++ "/locations/" ++ info.dbRegion ++
            "/clusters/" ++ info.dbCluster ++ "/instances/" ++ info.dbInstance)

/-- What the bond verification endpoint did for one POST: a
transport-level failure, or a response with a status code and a raw
body. -/
inductive BondHTTPResult where
  | transportError (msg : String)
  | response (status : Nat) (body : String)
deriving Repr, DecidableEq

/-- `sendJson` of the bond client file: the pair is Go's
`(b []byte, err error)` return, `none` in the first slot being the nil
slice. The status check `res.StatusCode < 200 || res.StatusCode > 299`
runs before `io.ReadAll(res.Body)`, so on a non-2xx status the function
returns with `b` still nil. -/
def sendJson (res : BondHTTPResult) : Option String × Option String :=
  match res with
  | BondHTTPResult.transportError e => (none, some e)
  | BondHTTPResult.response status body =>
    if status < 200 ∨ status > 299 then (none, some "expected 200 response")
    else (some body, none)

/-- A JSON value as far as `DDDBondPayload` marshalling needs one. -/
inductive JVal where
  | str (s : String)
  | num (n : Int)
deriving Repr, DecidableEq

/-- Embeds Go `encoding/json` marshalling of `DDDBondPayload`
(data-driven-decaf.go:23-28): fields in struct order under their tag
names, each tag carrying `omitempty`, which drops a field holding its
zero value (`""` for the strings, `0` for the int). -/
def marshalPayload (p : DDDBondPayload) : List (String × JVal) :=
  (if p.magicCoffee = "" then [] else [("magic_coffee", JVal.str p.magicCoffee)]) ++
    (if p.total = 0 then [] else [("total", JVal.num p.total)]) ++
    (if p.project = "" then [] else [("project", JVal.str p.project)]) ++
    (if p.db = "" then [] else [("db", JVal.str p.db)])

/-- The HTTP response `dddHandler` writes: `http.Error` with a status
and plain-text body, or the implicit-200 JSON encoding of the result. -/
inductive HttpResponse where
  | errorResp (status : Nat) (body : String)
  | okResp (fields : List (String × JVal))
deriving Repr, DecidableEq

/-- The `switch os.Getenv("DB_TYPE")` dispatch of `dddHandler`
(data-driven-decaf.go:265-292): which connect call runs, `none` for the
default branch. The three connect outcomes are passed as values so that
the handler below is a function of them. -/
def connSelect (dbType : String) (alloy pg mysql : Except String DDDBondPayload) :
    Option (Except String DDDBondPayload) :=
  if dbType = "ALLOY_DB" then some alloy
  else if dbType = "CLOUD_SQL_POSTGRES" then some pg
  else if dbType = "CLOUD_SQL_MYSQL" then some mysql
  else none

/-- `dddHandler` (data-driven-decaf.go:260-314) as a function of the
environment's `DB_TYPE`, the process project id, the outcome each
connect function would produce, and the bond endpoint's behaviour:
unknown type and connect errors become
`http.Error(w, "Error: ...", 500)`; otherwise project and db are
attached, the result is POSTed via `sendJson`, a verification failure
becomes `http.Error(w, "Data-Driven Decaf Error: ...", 500)`, and
success encodes the result as JSON. -/
def dddHandler (dbType : String) (cfgProjectID : String)
    (alloy pg mysql : Except String DDDBondPayload) (verifyRes : BondHTTPResult) : HttpResponse :=
  match connSelect dbType alloy pg mysql with
  | none => HttpResponse.errorResp 500 ("Error: Unknown DB type " ++ dbType)
  | some (Except.error e) => HttpResponse.errorResp 500 ("Error: " ++ e)
  | some (Except.ok result0) =>
    let result := { result0 with project := cfgProjectID, db := dbType }
    match sendJson verifyRes with
    | (_, some e) => HttpResponse.errorResp 500 ("Data-Driven Decaf Error: " ++ e)
    | (_, none) => HttpResponse.okResp (marshalPayload result)

/-- Instrumented copy of `pgLoop` that additionally records the 0-based
list position of every row processed while the counter `i` equalled 50,
i.e. every row whose name was written into `MagicCoffee`. Its payload
and counter evolve exactly as in `pgLoop`. -/
def pgLoopT : List (Except String CoffeeRow) → DDDBondPayload → Nat → Nat → List Nat →
    Except String (DDDBondPayload × List Nat)
  | [], result, _, _, caps => Except.ok (result, caps)
  | Except.error e :: _, _, _, _, _ => Except.error e
  | Except.ok row :: rest, result, i, pos, caps =>
    let result1 := if i = 50 then { result with magicCoffee := row.name } else result
    let caps1 := if i = 50 then caps ++ [pos] else caps
    match parsePrice row.price with
    | none => pgLoopT rest result1 i (pos + 1) caps1
    | some p => pgLoopT rest { result1 with total := int64Wrap (result1.total + p) } (i + 1) (pos + 1) caps1

/-- Specification helper: what one row adds to the running total — its
parsed price, or `0` when parsing fails and the row is skipped. -/
def priceContribution (r : CoffeeRow) : Int :=
  (parsePrice r.price).getD 0

/-- Specification helper: how many of the rows have a parseable price —
exactly the rows on which the Postgres loop increments its counter. -/
def countParsed (rows : List CoffeeRow) : Nat :=
  (rows.filter (fun r => (parsePrice r.price).isSome)).length

/-- Specification helper: the last row of the list whose `id` column is
51, if any. -/
def lastRowWithID51 : List CoffeeRow → Option CoffeeRow
  | [] => none
  | r :: rest =>
    match lastRowWithID51 rest with
    | some r1 => some r1
    | none => if r.id = 51 then some r else none

/-- Specification helper: the standard positional value of a digit
string, most significant digit first. -/
def decimalVal : List Char → Nat
  | [] => 0
  | c :: cs => (c.toNat - 48) * 10 ^ cs.length + decimalVal cs

/-- Concrete 52-row result set: row 0 has the unparseable price `"x"`,
every other price is `"1"`; the row at 0-based position 50 is named
`"A"`, the one at position 51 `"B"`. -/
def pgCxRows : List (Except String CoffeeRow) :=
  (List.range 52).map fun k =>
    Except.ok ⟨(k : Int), if k = 50 then "A" else if k = 51 then "B" else "",
      if k = 0 then "x" else "1"⟩

/-- Concrete 51-row result set: rows 0-49 have price `"1"`; the last
row (position 50) is named `"Z"` and has the unparseable price `"x"`. -/
def pgCx8Rows : List (Except String CoffeeRow) :=
  (List.range 51).map fun k =>
    Except.ok ⟨(k : Int), if k = 50 then "Z" else "", if k = 50 then "x" else "1"⟩

/-- The condition under which `sendJson` reports a failure for the
verification POST: transport-level error, or a status outside 200-299. -/
def verifyFailed : BondHTTPResult → Prop
  | BondHTTPResult.transportError _ => True
  | BondHTTPResult.response status _ => status < 200 ∨ status > 299

/-- C6: with zero rows, both row-aggregation paths succeed (no error)
and return the payload with empty sentinel and total 0. -/
theorem zero_rows_aggregation :
    DDDPostgresRows [] = Except.ok { magicCoffee := "", total := 0, project := "", db := "" } ∧
    DDDMySQLConnectRows [] = Except.ok { magicCoffee := "", total := 0, project := "", db := "" } :=
  ⟨rfl, rfl⟩

/-- C3: for a `DB_TYPE` outside the three recognized values, the switch
selects no connect call (`connSelect` is `none`, so no database
connection is attempted — the response is also independent of all three
connect outcomes, which are universally quantified here), and the
handler answers 500 with the unknown-type error body. -/
theorem unknown_db_type_rejected (dbType : String)
    (h1 : dbType ≠ "ALLOY_DB") (h2 : dbType ≠ "CLOUD_SQL_POSTGRES")
    (h3 : dbType ≠ "CLOUD_SQL_MYSQL")
    (cfg : String) (alloy pg mysql : Except String DDDBondPayload)
    (verifyRes : BondHTTPResult) :
    connSelect dbType alloy pg mysql = none ∧
    dddHandler dbType cfg alloy pg mysql verifyRes =
      HttpResponse.errorResp 500 ("Error: Unknown DB type " ++ dbType) := by
  have hsel : connSelect dbType alloy pg mysql = none := by
    simp [connSelect, h1, h2, h3]
  exact ⟨hsel, by simp [dddHandler, hsel]⟩

/-- Witness for C3 at the concrete unrecognized value `"BANANA"`. -/
theorem unknown_db_type_rejected_witness :
    connSelect "BANANA" (Except.ok {}) (Except.ok {}) (Except.ok {}) = none ∧
    dddHandler "BANANA" "proj" (Except.ok {}) (Except.ok {}) (Except.ok {})
        (BondHTTPResult.response 200 "ok") =
      HttpResponse.errorResp 500 ("Error: Unknown DB type " ++ "BANANA") :=
  unknown_db_type_rejected "BANANA" (by decide) (by decide) (by decide)
    "proj" (Except.ok {}) (Except.ok {}) (Except.ok {}) (BondHTTPResult.response 200 "ok")

/-- C4: with a successfully resolved `DBConnectionInfo` whose cluster
field is empty, `DDDAlloyConnect` stops with the dedicated
`expected db cluster to be set` error and never reaches the dial /
pool-connect stage. -/
theorem alloy_cluster_required (env : GoEnv) (info : DBConnectionInfo)
    (hok : dbConnectionInfo env = Except.ok info) (hc : info.dbCluster = "") :
    DDDAlloyConnect env = AlloyOutcome.clusterError "expected db cluster to be set" ∧
    ∀ target, DDDAlloyConnect env ≠ AlloyOutcome.dialConnect target := by
  have h1 : DDDAlloyConnect env = AlloyOutcome.clusterError "expected db cluster to be set" := by
    simp [DDDAlloyConnect, DDDPostgresConnection, hok, Except.map, hc]
  refine ⟨h1, fun target h2 => ?_⟩
  rw [h1] at h2
  exact AlloyOutcome.noConfusion h2

/-- Witness for C4 at a concrete environment with `DB_CLUSTER` unset. -/
theorem alloy_cluster_required_witness :
    DDDAlloyConnect ⟨"u", "p", "n", "r", "", "i", "proj", "cfg"⟩ =
      AlloyOutcome.clusterError "expected db cluster to be set" :=
  (alloy_cluster_required ⟨"u", "p", "n", "r", "", "i", "proj", "cfg"⟩
    ⟨"u", "p", "n", "r", "", "i", "proj"⟩ rfl rfl).1

/-- C5 counterexample: on a 503 response with the non-empty raw body
`"service unavailable"`, `sendJson` reports the failure but returns a
nil body (`none`), not the raw response body — the status check runs
before the body is read, so the body is never made available. -/
theorem verification_body_dropped_cx :
    sendJson (BondHTTPResult.response 503 "service unavailable") =
      (none, some "expected 200 response") ∧
    ("service unavailable" : String) ≠ "" ∧
    (sendJson (BondHTTPResult.response 503 "service unavailable")).1 ≠
      some "service unavailable" := by
  refine ⟨by decide, by decide, by decide⟩

/-- C5 (amended): on any verification failure (transport error or
non-2xx status) `sendJson` returns an error together with a nil body —
no response body is made available — and the handler, for any request
whose aggregation succeeded, responds 500 with a body containing
`Error:` (shown by explicit decomposition). -/
theorem verification_failure_amended (res : BondHTTPResult) (hfail : verifyFailed res) :
    (sendJson res).1 = none ∧
    (∃ e, (sendJson res).2 = some e) ∧
    (∀ dbType cfg alloy pg mysql result e,
      connSelect dbType alloy pg mysql = some (Except.ok result) →
      (sendJson res).2 = some e →
      dddHandler dbType cfg alloy pg mysql res =
        HttpResponse.errorResp 500 ("Data-Driven Decaf " ++ ("Error:" ++ (" " ++ e)))) := by
  have hnone : (sendJson res).1 = none := by
    cases res with
    | transportError e => rfl
    | response status body =>
      cases hfail with
      | inl hlt => simp [sendJson, if_pos (Or.inl hlt)]
      | inr hgt => simp [sendJson, if_pos (Or.inr hgt)]
  have herr : ∃ e, (sendJson res).2 = some e := by
    cases res with
    | transportError e => exact ⟨e, rfl⟩
    | response status body =>
      refine ⟨"expected 200 response", ?_⟩
      cases hfail with
      | inl hlt => simp [sendJson, if_pos (Or.inl hlt)]
      | inr hgt => simp [sendJson, if_pos (Or.inr hgt)]
  refine ⟨hnone, herr, ?_⟩
  intro dbType cfg alloy pg mysql result e hsel he
  have hbody : "Data-Driven Decaf " ++ ("Error:" ++ (" " ++ e)) = "Data-Driven Decaf Error: " ++ e := rfl
  have hpair : sendJson res = (none, some e) := by
    refine Prod.ext ?_ ?_ <;> simp [hnone, he]
  rw [hbody]
  simp [dddHandler, hsel, hpair]

/-- Witness for C5's amended theorem at a concrete 503 response. -/
theorem verification_failure_amended_witness :
    (sendJson (BondHTTPResult.response 503 "b")).1 = none ∧
    dddHandler "CLOUD_SQL_MYSQL" "proj" (Except.ok {}) (Except.ok {}) (Except.ok {})
        (BondHTTPResult.response 503 "b") =
      HttpResponse.errorResp 500
        ("Data-Driven Decaf " ++ ("Error:" ++ (" " ++ "expected 200 response"))) := by
  have h := verification_failure_amended (BondHTTPResult.response 503 "b")
    (Or.inr (by decide))
  exact ⟨h.1, h.2.2 "CLOUD_SQL_MYSQL" "proj" (Except.ok {}) (Except.ok {}) (Except.ok {})
    {} "expected 200 response" rfl rfl⟩

/-- C7: `dbConnectionInfo` succeeds exactly when user, password, db
name and instance are all non-empty; any empty one yields the single
collective error message; and the resolved project id is `DB_PROJECT`
with fallback to the process-wide `cfg.ProjectID` when unset. -/
theorem dbConnectionInfo_contract (env : GoEnv) :
    ((∃ info, dbConnectionInfo env = Except.ok info) ↔
      (env.dbUser ≠ "" ∧ env.dbPass ≠ "" ∧ env.dbName ≠ "" ∧ env.dbInstance ≠ "")) ∧
    ((env.dbUser = "" ∨ env.dbPass = "" ∨ env.dbName = "" ∨ env.dbInstance = "") →
      dbConnectionInfo env = Except.error "ensure required environment variables are set") ∧
    (∀ info, dbConnectionInfo env = Except.ok info →
      info.projectID = if env.dbProject = "" then env.cfgProjectID else env.dbProject) := by
  by_cases h : env.dbUser = "" ∨ env.dbPass = "" ∨ env.dbInstance = "" ∨ env.dbName = ""
  · refine ⟨?_, fun _ => by simp [dbConnectionInfo, h], fun info hinfo => ?_⟩
    · simp [dbConnectionInfo, h]
      tauto
    · simp [dbConnectionInfo, h] at hinfo
  · push_neg at h
    obtain ⟨hu, hp, hi, hn⟩ := h
    refine ⟨?_, ?_, fun info hinfo => ?_⟩
    · simp [dbConnectionInfo, hu, hp, hi, hn]
    · intro hbad
      tauto
    · simp [dbConnectionInfo, hu, hp, hi, hn] at hinfo
      rw [← hinfo]

/-- Witness for C7: a concrete missing-user environment fails with the
collective message, and the `DB_PROJECT`-unset fallback picks the
process-wide project id. -/
theorem dbConnectionInfo_contract_witness :
    dbConnectionInfo ⟨"", "p", "n", "r", "c", "i", "x", "cfg"⟩ =
      Except.error "ensure required environment variables are set" ∧
    (⟨"u", "p", "n", "r", "c", "i", "cfg"⟩ : DBConnectionInfo).projectID =
      (if ("" : String) = "" then "cfg" else "") :=
  ⟨(dbConnectionInfo_contract ⟨"", "p", "n", "r", "c", "i", "x", "cfg"⟩).2.1 (Or.inl rfl),
    (dbConnectionInfo_contract ⟨"u", "p", "n", "r", "c", "i", "", "cfg"⟩).2.2
      ⟨"u", "p", "n", "r", "c", "i", "cfg"⟩ rfl⟩

/-- C10: `omitempty` marshalling drops every zero-valued field — no
`total` key when the total is 0, no `magic_coffee` key when the
sentinel is empty (while non-zero values are emitted) — and in
particular the zero-rows success payload of either path carries
neither key. -/
theorem omitempty_zero_fields :
    (∀ p : DDDBondPayload, p.total = 0 → "total" ∉ (marshalPayload p).map Prod.fst) ∧
    (∀ p : DDDBondPayload, p.magicCoffee = "" → "magic_coffee" ∉ (marshalPayload p).map Prod.fst) ∧
    (∀ p : DDDBondPayload, p.total ≠ 0 → ("total", JVal.num p.total) ∈ marshalPayload p) ∧
    (∀ p : DDDBondPayload, p.magicCoffee ≠ "" → ("magic_coffee", JVal.str p.magicCoffee) ∈ marshalPayload p) ∧
    (∀ proj db res, DDDPostgresRows [] = Except.ok res →
      "total" ∉ (marshalPayload { res with project := proj, db := db }).map Prod.fst ∧
      "magic_coffee" ∉ (marshalPayload { res with project := proj, db := db }).map Prod.fst) ∧
    (∀ proj db res, DDDMySQLConnectRows [] = Except.ok res →
      "total" ∉ (marshalPayload { res with project := proj, db := db }).map Prod.fst ∧
      "magic_coffee" ∉ (marshalPayload { res with project := proj, db := db }).map Prod.fst) := by
  refine ⟨fun p h => by simp [marshalPayload, h],
    fun p h => by simp [marshalPayload, h],
    fun p h => by simp [marshalPayload, h],
    fun p h => by simp [marshalPayload, h],
    fun proj db res h => ?_, fun proj db res h => ?_⟩
  · have hres : res = {} := by
      simp [DDDPostgresRows, pgLoop] at h
      exact h.symm
    subst hres
    constructor <;> simp [marshalPayload]
  · have hres : res = {} := by
      simp [DDDMySQLConnectRows, mysqlLoop] at h
      exact h.symm
    subst hres
    constructor <;> simp [marshalPayload]

/-- Witness for C10 at concrete payloads: a zero total yields no
`total` key, an empty sentinel no `magic_coffee` key, and the
zero-rows Postgres payload with project and db attached carries
neither. -/
theorem omitempty_zero_fields_witness :
    "total" ∉ (marshalPayload { magicCoffee := "x", total := 0, project := "p", db := "d" }).map Prod.fst ∧
    "magic_coffee" ∉ (marshalPayload { magicCoffee := "", total := 3, project := "p", db := "d" }).map Prod.fst ∧
    ("total" ∉ (marshalPayload { magicCoffee := "", total := 0, project := "p", db := "d" }).map Prod.fst ∧
      "magic_coffee" ∉ (marshalPayload { magicCoffee := "", total := 0, project := "p", db := "d" }).map Prod.fst) :=
  ⟨omitempty_zero_fields.1 { magicCoffee := "x", total := 0, project := "p", db := "d" } rfl,
    omitempty_zero_fields.2.1 { magicCoffee := "", total := 3, project := "p", db := "d" } rfl,
    omitempty_zero_fields.2.2.2.2.1 "p" "d" {} rfl⟩

/-- The code's left fold over digits computes the positional value. -/
lemma decimalVal_foldl (cs : List Char) : ∀ a : Nat,
    cs.foldl (fun a c => a * 10 + (c.toNat - 48)) a = a * 10 ^ cs.length + decimalVal cs := by
  induction cs with
  | nil => intro a; simp [decimalVal]
  | cons c cs ih =>
    intro a
    simp only [List.foldl_cons, decimalVal, List.length_cons, ih]
    ring

lemma parseDigits_eq_decimalVal (cs : List Char) (h1 : cs ≠ []) (h2 : cs.all Char.isDigit = true) :
    parseDigits cs = some (decimalVal cs) := by
  simp [parseDigits, h1, h2, decimalVal_foldl]

lemma isDigit_ne_dot {c : Char} (h : c.isDigit = true) : c ≠ '.' := by
  intro he
  rw [he] at h
  exact absurd h (by decide)

lemma isDigit_ne_plus {c : Char} (h : c.isDigit = true) : c ≠ '+' := by
  intro he
  rw [he] at h
  exact absurd h (by decide)

lemma isDigit_ne_minus {c : Char} (h : c.isDigit = true) : c ≠ '-' := by
  intro he
  rw [he] at h
  exact absurd h (by decide)

/-- `strings.Split(s, ".")[0]` of a string that opens with dot-free
characters followed by `'.'` is exactly those characters. -/
lemma goSplitDot_mk_append (ds tail : List Char) (hds : ∀ c ∈ ds, c ≠ '.') :
    goSplitDot (String.mk (ds ++ '.' :: tail)) = ds := by
  show (ds ++ '.' :: tail).takeWhile (fun c => c ≠ '.') = ds
  induction ds with
  | nil => simp [List.takeWhile_cons]
  | cons c cs ih =>
    have hc : c ≠ '.' := hds c (List.mem_cons_self c cs)
    have hdec : decide (c ≠ '.') = true := by simp [hc]
    simp only [List.cons_append, List.takeWhile_cons, hdec, if_true]
    exact congrArg (List.cons c) (ih (fun d hd => hds d (List.mem_cons_of_mem c hd)))

/-- A price of shape `<digits>.<anything>` parses to the positional
value of the digits before the dot. -/
lemma parsePrice_pos (ds tail : List Char) (h1 : ds ≠ []) (h2 : ds.all Char.isDigit = true)
    (h3 : (decimalVal ds : Int) ≤ int64Max) :
    parsePrice (String.mk (ds ++ '.' :: tail)) = some (decimalVal ds) := by
  have hds : ∀ c ∈ ds, c ≠ '.' := by
    intro c hc
    exact isDigit_ne_dot (by have := List.all_eq_true.mp h2 c hc; simpa using this)
  unfold parsePrice
  rw [goSplitDot_mk_append ds tail hds]
  cases ds with
  | nil => exact absurd rfl h1
  | cons c cs =>
    have hcd : c.isDigit = true := by
      have := List.all_eq_true.mp h2 c (List.mem_cons_self c cs)
      simpa using this
    have hplus : c ≠ '+' := isDigit_ne_plus hcd
    have hminus : c ≠ '-' := isDigit_ne_minus hcd
    simp only [goAtoiChars, hplus, hminus, if_false, ite_false]
    rw [parseDigits_eq_decimalVal (c :: cs) h1 h2]
    simp [h3]

/-- A price of shape `-<digits>.<anything>` parses to the negated
positional value of the digits. -/
lemma parsePrice_neg (ds tail : List Char) (h1 : ds ≠ []) (h2 : ds.all Char.isDigit = true)
    (h3 : int64Min ≤ -(decimalVal ds : Int)) :
    parsePrice (String.mk ('-' :: (ds ++ '.' :: tail))) = some (-(decimalVal ds : Int)) := by
  have hds : ∀ c ∈ ('-' :: ds), c ≠ '.' := by
    intro c hc
    cases hc with
    | head => decide
    | tail _ hmem =>
      exact isDigit_ne_dot (by have := List.all_eq_true.mp h2 c hmem; simpa using this)
  unfold parsePrice
  have hmk : String.mk ('-' :: (ds ++ '.' :: tail)) = String.mk (('-' :: ds) ++ '.' :: tail) := rfl
  rw [hmk, goSplitDot_mk_append ('-' :: ds) tail hds]
  simp only [goAtoiChars]
  norm_num
  rw [parseDigits_eq_decimalVal ds h1 h2]
  simp [h3]

/-- Normalizing into the int64 range is the identity on values already
in range. -/
lemma int64Wrap_eq_self {x : Int} (h1 : int64Min ≤ x) (h2 : x ≤ int64Max) :
    int64Wrap x = x := by
  unfold int64Min at h1
  unfold int64Max at h2
  unfold int64Wrap
  rw [Int.emod_eq_of_lt (by omega) (by omega)]
  omega

/-- The wrapped value always lies in the int64 range. -/
lemma int64Wrap_range (x : Int) : int64Min ≤ int64Wrap x ∧ int64Wrap x ≤ int64Max := by
  unfold int64Wrap int64Min int64Max
  have h1 : 0 ≤ (x + 9223372036854775808) % 18446744073709551616 :=
    Int.emod_nonneg _ (by norm_num)
  have h2 : (x + 9223372036854775808) % 18446744073709551616 < 18446744073709551616 :=
    Int.emod_lt_of_pos _ (by norm_num)
  omega

/-- Wrapping changes a value by a multiple of 2^64. -/
lemma int64Wrap_modeq (x : Int) :
    (18446744073709551616 : Int) ∣ (int64Wrap x - x) :=
  ⟨-((x + 9223372036854775808) / 18446744073709551616), by
    unfold int64Wrap
    rw [Int.emod_def]
    ring⟩

/-- The Postgres row loop never aborts on successfully scanned rows;
its final total differs from the exact integer sum of the per-row
contributions (plus the starting total) by a multiple of 2^64 — Go's
wrapping `int` addition — and stays in the int64 range whenever the
starting total is in range. A malformed price contributes 0 and the
loop continues to the remaining rows. -/
lemma pg_total (rows : List CoffeeRow) : ∀ (result : DDDBondPayload) (i : Nat),
    ∃ p, pgLoop (rows.map Except.ok) result i = Except.ok p ∧
      (18446744073709551616 : Int) ∣
        (p.total - (result.total + (rows.map priceContribution).sum)) ∧
      (int64Min ≤ result.total ∧ result.total ≤ int64Max →
        int64Min ≤ p.total ∧ p.total ≤ int64Max) := by
  induction rows with
  | nil =>
    intro result i
    exact ⟨result, rfl, by simp, fun h => h⟩
  | cons r rest ih =>
    intro result i
    have hmt : (if i = 50 then { result with magicCoffee := r.name } else result).total = result.total := by
      split <;> rfl
    cases hp : parsePrice r.price with
    | none =>
      obtain ⟨p, hok, hdvd, hrange⟩ := ih (if i = 50 then { result with magicCoffee := r.name } else result) i
      rw [hmt] at hdvd hrange
      refine ⟨p, ?_, ?_, hrange⟩
      · simp only [List.map_cons, pgLoop, hp]
        exact hok
      · simpa [priceContribution, hp] using hdvd
    | some v =>
      obtain ⟨p, hok, hdvd, hrange⟩ := ih { (if i = 50 then { result with magicCoffee := r.name } else result) with
        total := int64Wrap ((if i = 50 then { result with magicCoffee := r.name } else result).total + v) } (i + 1)
      rw [hmt] at hdvd hrange
      refine ⟨p, ?_, ?_, ?_⟩
      · simp only [List.map_cons, pgLoop, hp]
        exact hok
      · have hw := int64Wrap_modeq (result.total + v)
        have hcomb := dvd_add hdvd hw
        have heq : p.total - (int64Wrap (result.total + v) + (rest.map priceContribution).sum) +
            (int64Wrap (result.total + v) - (result.total + v)) =
            p.total - (result.total + (v + (rest.map priceContribution).sum)) := by ring
        rw [heq] at hcomb
        simpa [priceContribution, hp] using hcomb
      · intro _
        exact hrange ⟨(int64Wrap_range _).1, (int64Wrap_range _).2⟩

/-- MySQL analogue of `pg_total`. -/
lemma mysql_total (rows : List CoffeeRow) : ∀ (result : DDDBondPayload),
    ∃ p, mysqlLoop (rows.map Except.ok) result = Except.ok p ∧
      (18446744073709551616 : Int) ∣
        (p.total - (result.total + (rows.map priceContribution).sum)) ∧
      (int64Min ≤ result.total ∧ result.total ≤ int64Max →
        int64Min ≤ p.total ∧ p.total ≤ int64Max) := by
  induction rows with
  | nil =>
    intro result
    exact ⟨result, rfl, by simp, fun h => h⟩
  | cons r rest ih =>
    intro result
    have hmt : (if r.id = 51 then { result with magicCoffee := r.name } else result).total = result.total := by
      split <;> rfl
    cases hp : parsePrice r.price with
    | none =>
      obtain ⟨p, hok, hdvd, hrange⟩ := ih (if r.id = 51 then { result with magicCoffee := r.name } else result)
      rw [hmt] at hdvd hrange
      refine ⟨p, ?_, ?_, hrange⟩
      · simp only [List.map_cons, mysqlLoop, hp]
        exact hok
      · simpa [priceContribution, hp] using hdvd
    | some v =>
      obtain ⟨p, hok, hdvd, hrange⟩ := ih { (if r.id = 51 then { result with magicCoffee := r.name } else result) with
        total := int64Wrap ((if r.id = 51 then { result with magicCoffee := r.name } else result).total + v) }
      rw [hmt] at hdvd hrange
      refine ⟨p, ?_, ?_, ?_⟩
      · simp only [List.map_cons, mysqlLoop, hp]
        exact hok
      · have hw := int64Wrap_modeq (result.total + v)
        have hcomb := dvd_add hdvd hw
        have heq : p.total - (int64Wrap (result.total + v) + (rest.map priceContribution).sum) +
            (int64Wrap (result.total + v) - (result.total + v)) =
            p.total - (result.total + (v + (rest.map priceContribution).sum)) := by ring
        rw [heq] at hcomb
        simpa [priceContribution, hp] using hcomb
      · intro _
        exact hrange ⟨(int64Wrap_range _).1, (int64Wrap_range _).2⟩

/-- C2: a price string `<int>.<digits>` contributes exactly the integer
before the first dot (positive and negative forms); a malformed price
contributes 0; and on any sequence of scanned rows both row loops
finish without aborting, with the final total congruent mod 2^64 to
the exact integer sum of the per-row contributions (Go's 64-bit total
wraps), inside the int64 range, and equal to the exact sum whenever
that sum fits in an int64 — so a malformed row leaves the total
unchanged and the remaining rows are still processed. -/
theorem price_parsing_spec :
    (∀ ds tail, ds ≠ [] → ds.all Char.isDigit = true → (decimalVal ds : Int) ≤ int64Max →
      parsePrice (String.mk (ds ++ '.' :: tail)) = some (decimalVal ds)) ∧
    (∀ ds tail, ds ≠ [] → ds.all Char.isDigit = true → int64Min ≤ -(decimalVal ds : Int) →
      parsePrice (String.mk ('-' :: (ds ++ '.' :: tail))) = some (-(decimalVal ds : Int))) ∧
    (∀ r : CoffeeRow, parsePrice r.price = none → priceContribution r = 0) ∧
    (∀ (rows : List CoffeeRow) (result : DDDBondPayload) (i : Nat),
      ∃ p, pgLoop (rows.map Except.ok) result i = Except.ok p ∧
        (18446744073709551616 : Int) ∣
          (p.total - (result.total + (rows.map priceContribution).sum)) ∧
        (int64Min ≤ result.total ∧ result.total ≤ int64Max →
          int64Min ≤ p.total ∧ p.total ≤ int64Max)) ∧
    (∀ rows : List CoffeeRow, ∃ p, DDDPostgresRows (rows.map Except.ok) = Except.ok p ∧
      (18446744073709551616 : Int) ∣ (p.total - (rows.map priceContribution).sum) ∧
      int64Min ≤ p.total ∧ p.total ≤ int64Max ∧
      (int64Min ≤ (rows.map priceContribution).sum →
        (rows.map priceContribution).sum ≤ int64Max →
        p.total = (rows.map priceContribution).sum)) ∧
    (∀ rows : List CoffeeRow, ∃ p, DDDMySQLConnectRows (rows.map Except.ok) = Except.ok p ∧
      (18446744073709551616 : Int) ∣ (p.total - (rows.map priceContribution).sum) ∧
      int64Min ≤ p.total ∧ p.total ≤ int64Max ∧
      (int64Min ≤ (rows.map priceContribution).sum →
        (rows.map priceContribution).sum ≤ int64Max →
        p.total = (rows.map priceContribution).sum)) := by
  refine ⟨parsePrice_pos, parsePrice_neg,
    fun r h => by simp [priceContribution, h],
    fun rows result i => pg_total rows result i, fun rows => ?_, fun rows => ?_⟩
  · obtain ⟨p, hok, hdvd, hrange⟩ := pg_total rows {} 0
    have hdvd0 : (18446744073709551616 : Int) ∣ (p.total - (rows.map priceContribution).sum) := by
      simpa using hdvd
    have hr := hrange
      ((by unfold int64Min int64Max; omega : int64Min ≤ (0 : Int) ∧ (0 : Int) ≤ int64Max))
    refine ⟨p, hok, hdvd0, hr.1, hr.2, fun hs1 hs2 => ?_⟩
    unfold int64Min at hr hs1
    unfold int64Max at hr hs2
    omega
  · obtain ⟨p, hok, hdvd, hrange⟩ := mysql_total rows {}
    have hdvd0 : (18446744073709551616 : Int) ∣ (p.total - (rows.map priceContribution).sum) := by
      simpa using hdvd
    have hr := hrange
      ((by unfold int64Min int64Max; omega : int64Min ≤ (0 : Int) ∧ (0 : Int) ≤ int64Max))
    refine ⟨p, hok, hdvd0, hr.1, hr.2, fun hs1 hs2 => ?_⟩
    unfold int64Min at hr hs1
    unfold int64Max at hr hs2
    omega

/-- Witness for C2 at the concrete prices `"4.50"` and `"-3.5"`. -/
theorem price_parsing_spec_witness :
    parsePrice (String.mk (['4'] ++ '.' :: ['5', '0'])) = some (decimalVal ['4']) ∧
    parsePrice (String.mk ('-' :: (['3'] ++ '.' :: ['5']))) = some (-(decimalVal ['3'] : Int)) :=
  ⟨price_parsing_spec.1 ['4'] ['5', '0'] (by decide) (by decide) (by decide),
    price_parsing_spec.2.1 ['3'] ['5'] (by decide) (by decide) (by decide)⟩

/-- Once the Postgres counter has passed 50 it never returns to 50 (it
only grows), so the sentinel can no longer change. -/
lemma pg_magic_preserved : ∀ (rows : List (Except String CoffeeRow)) (result : DDDBondPayload) (i : Nat),
    50 < i → ∀ p, pgLoop rows result i = Except.ok p → p.magicCoffee = result.magicCoffee := by
  intro rows
  induction rows with
  | nil =>
    intro result i _ p hp
    cases hp
    rfl
  | cons x rows ih =>
    intro result i hi p hp
    cases x with
    | error e => simp [pgLoop] at hp
    | ok row =>
      have hne : i ≠ 50 := by omega
      simp only [pgLoop, hne, ite_false, if_false, if_neg hne] at hp
      cases hparse : parsePrice row.price with
      | none =>
        rw [hparse] at hp
        exact ih result i hi p hp
      | some v =>
        rw [hparse] at hp
        have h2 := ih { result with total := int64Wrap (result.total + v) } (i + 1) (by omega) p hp
        simpa using h2

/-- Processing a block of all-parseable rows while the counter stays
below 50 only accumulates the total and advances the counter by the
block length; the sentinel is untouched. -/
lemma pg_skip_front : ∀ (pre : List CoffeeRow),
    (∀ r ∈ pre, (parsePrice r.price).isSome = true) →
    ∀ (rest : List (Except String CoffeeRow)) (result : DDDBondPayload) (i : Nat),
      i + pre.length ≤ 50 →
      ∃ t, pgLoop (pre.map Except.ok ++ rest) result i =
        pgLoop rest { result with total := t } (i + pre.length) := by
  intro pre
  induction pre with
  | nil =>
    intro _ rest result i _
    exact ⟨result.total, by simp⟩
  | cons r pre ih =>
    intro hall rest result i hle
    have hr : (parsePrice r.price).isSome = true := hall r (List.mem_cons_self r pre)
    obtain ⟨v, hv⟩ : ∃ v, parsePrice r.price = some v := Option.isSome_iff_exists.mp hr
    have hlen : i + (pre.length + 1) ≤ 50 := by simpa using hle
    have hne : i ≠ 50 := by omega
    obtain ⟨t, ht⟩ := ih (fun s hs => hall s (List.mem_cons_of_mem r hs)) rest
      { result with total := int64Wrap (result.total + v) } (i + 1) (by omega)
    refine ⟨t, ?_⟩
    simp only [List.map_cons, List.cons_append, List.append_eq, pgLoop, hne, ite_false,
      if_neg hne, hv]
    rw [ht]
    have harith : i + 1 + pre.length = i + (pre.length + 1) := by omega
    simp only [List.length_cons, harith]

/-- When the first 51 scanned rows (50 plus the row at position 50) all
have parseable prices, the Postgres sentinel is exactly the name of the
row at position 50, whatever follows. -/
lemma pg_sentinel_at_position50 (pre : List CoffeeRow) (s : CoffeeRow)
    (rest : List (Except String CoffeeRow)) (p : DDDBondPayload)
    (hlen : pre.length = 50) (hall : ∀ r ∈ pre, (parsePrice r.price).isSome = true)
    (hs : (parsePrice s.price).isSome = true)
    (hok : DDDPostgresRows (pre.map Except.ok ++ Except.ok s :: rest) = Except.ok p) :
    p.magicCoffee = s.name := by
  obtain ⟨t, ht⟩ := pg_skip_front pre hall (Except.ok s :: rest) {} 0 (by omega)
  rw [DDDPostgresRows, ht] at hok
  obtain ⟨v, hv⟩ : ∃ v, parsePrice s.price = some v := Option.isSome_iff_exists.mp hs
  rw [hlen] at hok
  simp only [pgLoop, hv, if_pos rfl, ite_true] at hok
  have h2 := pg_magic_preserved rest _ 51 (by omega) p hok
  simpa using h2

lemma lastRowWithID51_none : ∀ (rows : List CoffeeRow), (∀ r ∈ rows, r.id ≠ 51) →
    lastRowWithID51 rows = none := by
  intro rows
  induction rows with
  | nil => intro _; rfl
  | cons r rest ih =>
    intro h
    have h1 := ih (fun s hs => h s (List.mem_cons_of_mem r hs))
    have h2 : r.id ≠ 51 := h r (List.mem_cons_self r rest)
    simp [lastRowWithID51, h1, h2]

lemma lastRowWithID51_append : ∀ (xs ys : List CoffeeRow),
    lastRowWithID51 (xs ++ ys) =
      match lastRowWithID51 ys with
      | some r => some r
      | none => lastRowWithID51 xs := by
  intro xs ys
  induction xs with
  | nil =>
    cases h : lastRowWithID51 ys with
    | none => simp [h, lastRowWithID51]
    | some r => simp [h]
  | cons x xs ih =>
    cases h : lastRowWithID51 ys with
    | none =>
      simp only [h] at ih ⊢
      simp only [List.cons_append, lastRowWithID51, List.append_eq, ih]
    | some r =>
      simp only [h] at ih ⊢
      simp only [List.cons_append, lastRowWithID51, List.append_eq, ih]

lemma lastRowWithID51_mem : ∀ (rows : List CoffeeRow) (r : CoffeeRow),
    lastRowWithID51 rows = some r → r ∈ rows ∧ r.id = 51 := by
  intro rows
  induction rows with
  | nil => intro r h; cases h
  | cons x xs ih =>
    intro r h
    simp only [lastRowWithID51] at h
    cases hl : lastRowWithID51 xs with
    | some r1 =>
      rw [hl] at h
      obtain ⟨hm, hid⟩ := ih r1 hl
      cases h
      exact ⟨List.mem_cons_of_mem x hm, hid⟩
    | none =>
      rw [hl] at h
      by_cases hid : x.id = 51
      · rw [if_pos hid] at h
        cases h
        exact ⟨List.mem_cons_self x xs, hid⟩
      · rw [if_neg hid] at h
        cases h

/-- The sentinel of the MySQL loop is the name of the last scanned row
whose id column is 51, independent of any position. -/
lemma mysql_magic_char : ∀ (rows : List CoffeeRow) (result p : DDDBondPayload),
    mysqlLoop (rows.map Except.ok) result = Except.ok p →
    p.magicCoffee = (match lastRowWithID51 rows with
      | some r => r.name
      | none => result.magicCoffee) := by
  intro rows
  induction rows with
  | nil =>
    intro result p hp
    cases hp
    rfl
  | cons r rest ih =>
    intro result p hp
    have hstep : ∃ result1 : DDDBondPayload,
        mysqlLoop (rest.map Except.ok) result1 = Except.ok p ∧
        result1.magicCoffee = (if r.id = 51 then r.name else result.magicCoffee) := by
      cases hparse : parsePrice r.price with
      | none =>
        refine ⟨if r.id = 51 then { result with magicCoffee := r.name } else result, ?_, ?_⟩
        · simpa only [List.map_cons, mysqlLoop, hparse] using hp
        · split <;> rfl
      | some v =>
        refine ⟨{ (if r.id = 51 then { result with magicCoffee := r.name } else result) with
          total := int64Wrap ((if r.id = 51 then { result with magicCoffee := r.name } else result).total + v) }, ?_, ?_⟩
        · simpa only [List.map_cons, mysqlLoop, hparse] using hp
        · show (if r.id = 51 then { result with magicCoffee := r.name } else result).magicCoffee = _
          split <;> rfl
    obtain ⟨result1, hloop, hmag⟩ := hstep
    have h2 := ih result1 p hloop
    rw [h2, hmag]
    cases hl : lastRowWithID51 rest with
    | some r1 => simp [lastRowWithID51, hl]
    | none =>
      by_cases hid : r.id = 51
      · simp [lastRowWithID51, hl, hid]
      · simp [lastRowWithID51, hl, hid]

/-- A unique id-51 row determines the MySQL sentinel wherever it sits. -/
lemma mysql_sentinel_unique (pre post : List CoffeeRow) (s : CoffeeRow) (p : DDDBondPayload)
    (hid : s.id = 51) (hpost : ∀ r ∈ post, r.id ≠ 51)
    (hok : DDDMySQLConnectRows ((pre ++ s :: post).map Except.ok) = Except.ok p) :
    p.magicCoffee = s.name := by
  have h1 := mysql_magic_char (pre ++ s :: post) {} p hok
  have h2 : lastRowWithID51 (pre ++ s :: post) = some s := by
    rw [lastRowWithID51_append]
    have h3 : lastRowWithID51 (s :: post) = some s := by
      simp [lastRowWithID51, lastRowWithID51_none post hpost, hid]
    simp [h3]
  rw [h2] at h1
  exact h1

/-- C1 counterexample: 52 rows with the row at index 50 named `"A"`,
but — because row 0's price `"x"` does not parse and so does not
advance the counter — the computed sentinel is `"B"`, the name of the
row at index 51, refuting the claim that the sentinel always equals
the name of the row at the configured index for sequences of length at
least index+1. -/
theorem sentinel_index_capture_cx :
    pgCxRows.length = 52 ∧
    pgCxRows.get? 50 = some (Except.ok ⟨50, "A", "1"⟩) ∧
    DDDPostgresRows pgCxRows = Except.ok ⟨"B", 51, "", ""⟩ ∧
    ("B" : String) ≠ "A" := by
  refine ⟨by rfl, by rfl, by rfl, by decide⟩

/-- C1 (amended): Postgres path — when the first 51 scanned rows all
have parseable prices, the sentinel equals the name of the row at
0-based position 50, independent of how many rows follow; MySQL path —
the sentinel equals the name of the row with id column 51 (the last
such row; here unique after its position), independent of its position
and of the row count. -/
theorem sentinel_index_capture_amended :
    (∀ (pre : List CoffeeRow) (s : CoffeeRow) (rest : List (Except String CoffeeRow)) (p : DDDBondPayload),
      pre.length = 50 → (∀ r ∈ pre, (parsePrice r.price).isSome = true) →
      (parsePrice s.price).isSome = true →
      DDDPostgresRows (pre.map Except.ok ++ Except.ok s :: rest) = Except.ok p →
      p.magicCoffee = s.name) ∧
    (∀ (pre post : List CoffeeRow) (s : CoffeeRow) (p : DDDBondPayload),
      s.id = 51 → (∀ r ∈ post, r.id ≠ 51) →
      DDDMySQLConnectRows ((pre ++ s :: post).map Except.ok) = Except.ok p →
      p.magicCoffee = s.name) :=
  ⟨pg_sentinel_at_position50, mysql_sentinel_unique⟩

/-- Witness for C1's amended theorem: a 52-row all-parseable Postgres
sequence captures the name `"A"` of the row at position 50, and a
3-row MySQL sequence captures the name `"C"` of its id-51 row sitting
at position 1. -/
theorem sentinel_index_capture_amended_witness :
    (⟨"A", 53, "", ""⟩ : DDDBondPayload).magicCoffee = "A" ∧
    (⟨"C", 6, "", ""⟩ : DDDBondPayload).magicCoffee = "C" := by
  constructor
  · refine sentinel_index_capture_amended.1
      ((List.range 50).map (fun k : Nat => (⟨(k : Int), "", "1"⟩ : CoffeeRow)))
      ⟨50, "A", "2"⟩ [Except.ok ⟨51, "B", "1"⟩] ⟨"A", 53, "", ""⟩
      (by rw [List.length_map, List.length_range]) ?_ (by decide) (by rfl)
    intro r hr
    simp only [List.mem_map] at hr
    obtain ⟨k, _, hk⟩ := hr
    rw [← hk]
    show (parsePrice "1").isSome = true
    decide
  · exact sentinel_index_capture_amended.2 [⟨1, "X", "1"⟩] [⟨2, "Y", "3"⟩] ⟨51, "C", "2"⟩
      ⟨"C", 6, "", ""⟩ rfl (by decide) (by rfl)

/-- C9: the MySQL sentinel is the name of the last scanned row whose
id column equals 51 (empty when there is none) — rows are not counted,
so a row with id 51 sets the sentinel regardless of its position, and
with several id-51 rows the last scanned one wins; the accompanying
conjuncts pin down what `lastRowWithID51` selects. -/
theorem mysql_sentinel_by_id :
    (∀ (rows : List CoffeeRow) (p : DDDBondPayload),
      DDDMySQLConnectRows (rows.map Except.ok) = Except.ok p →
      p.magicCoffee = (match lastRowWithID51 rows with
        | some r => r.name
        | none => "")) ∧
    (∀ (rows : List CoffeeRow) (r : CoffeeRow),
      lastRowWithID51 rows = some r → r ∈ rows ∧ r.id = 51) ∧
    (∀ (xs ys : List CoffeeRow), lastRowWithID51 (xs ++ ys) =
      match lastRowWithID51 ys with
      | some r => some r
      | none => lastRowWithID51 xs) :=
  ⟨fun rows p h => mysql_magic_char rows {} p h, lastRowWithID51_mem, lastRowWithID51_append⟩

/-- Witness for C9: the sentinel of a concrete 3-row sequence with the
id-51 row in the middle is that row's name. -/
theorem mysql_sentinel_by_id_witness :
    (⟨"C", 6, "", ""⟩ : DDDBondPayload).magicCoffee =
      (match lastRowWithID51 [⟨1, "X", "1"⟩, ⟨51, "C", "2"⟩, ⟨2, "Y", "3"⟩] with
        | some r => r.name
        | none => "") :=
  mysql_sentinel_by_id.1 [⟨1, "X", "1"⟩, ⟨51, "C", "2"⟩, ⟨2, "Y", "3"⟩] ⟨"C", 6, "", ""⟩ (by rfl)

lemma countParsed_cons (r : CoffeeRow) (rows : List CoffeeRow) :
    countParsed (r :: rows) =
      (if (parsePrice r.price).isSome then 1 else 0) + countParsed rows := by
  simp only [countParsed, List.filter_cons]
  split
  · simp [List.length_cons]
    omega
  · simp

/-- Processing a block of scanned rows advances the Postgres counter by
exactly the number of rows whose price parses. -/
lemma pg_front : ∀ (rows : List CoffeeRow) (rest : List (Except String CoffeeRow))
    (result : DDDBondPayload) (i : Nat),
    ∃ result1, pgLoop (rows.map Except.ok ++ rest) result i =
      pgLoop rest result1 (i + countParsed rows) := by
  intro rows
  induction rows with
  | nil =>
    intro rest result i
    refine ⟨result, ?_⟩
    simp [countParsed]
  | cons r rows ih =>
    intro rest result i
    cases hparse : parsePrice r.price with
    | none =>
      obtain ⟨result1, h1⟩ := ih rest (if i = 50 then { result with magicCoffee := r.name } else result) i
      refine ⟨result1, ?_⟩
      simp only [List.map_cons, List.cons_append, List.append_eq, pgLoop, hparse]
      rw [h1, countParsed_cons, hparse]
      simp
    | some v =>
      obtain ⟨result1, h1⟩ := ih rest
        { (if i = 50 then { result with magicCoffee := r.name } else result) with
          total := int64Wrap ((if i = 50 then { result with magicCoffee := r.name } else result).total + v) } (i + 1)
      refine ⟨result1, ?_⟩
      simp only [List.map_cons, List.cons_append, List.append_eq, pgLoop, hparse]
      rw [h1, countParsed_cons, hparse]
      have : i + 1 + countParsed rows = i + (1 + countParsed rows) := by omega
      simp [this]

/-- Positions already recorded in the capture trace survive the rest of
the loop. -/
lemma pgLoopT_caps_sub : ∀ (rows : List (Except String CoffeeRow)) (result : DDDBondPayload)
    (i pos : Nat) (caps : List Nat) (p : DDDBondPayload) (cs : List Nat),
    pgLoopT rows result i pos caps = Except.ok (p, cs) → ∀ q ∈ caps, q ∈ cs := by
  intro rows
  induction rows with
  | nil =>
    intro result i pos caps p cs h q hq
    cases h
    exact hq
  | cons x rows ih =>
    intro result i pos caps p cs h q hq
    cases x with
    | error e => simp [pgLoopT] at h
    | ok row =>
      by_cases hi : i = 50
      · cases hparse : parsePrice row.price with
        | none =>
          simp only [pgLoopT, hi, ite_true, if_pos rfl, hparse] at h
          exact ih _ _ _ _ _ _ h q (List.mem_append_left _ hq)
        | some v =>
          simp only [pgLoopT, hi, ite_true, if_pos rfl, hparse] at h
          exact ih _ _ _ _ _ _ h q (List.mem_append_left _ hq)
      · cases hparse : parsePrice row.price with
        | none =>
          simp only [pgLoopT, hi, ite_false, if_neg hi, hparse] at h
          exact ih _ _ _ _ _ _ h q hq
        | some v =>
          simp only [pgLoopT, hi, ite_false, if_neg hi, hparse] at h
          exact ih _ _ _ _ _ _ h q hq

/-- Every position in the final capture trace was either present at the
start or lies at or beyond the starting position. -/
lemma pgLoopT_caps_ge : ∀ (rows : List (Except String CoffeeRow)) (result : DDDBondPayload)
    (i pos : Nat) (caps : List Nat) (p : DDDBondPayload) (cs : List Nat),
    pgLoopT rows result i pos caps = Except.ok (p, cs) → ∀ q ∈ cs, q ∈ caps ∨ pos ≤ q := by
  intro rows
  induction rows with
  | nil =>
    intro result i pos caps p cs h q hq
    cases h
    exact Or.inl hq
  | cons x rows ih =>
    intro result i pos caps p cs h q hq
    cases x with
    | error e => simp [pgLoopT] at h
    | ok row =>
      by_cases hi : i = 50
      · cases hparse : parsePrice row.price with
        | none =>
          simp only [pgLoopT, hi, ite_true, if_pos rfl, hparse] at h
          rcases ih _ _ _ _ _ _ h q hq with hin | hge
          · rcases List.mem_append.mp hin with hc | hp
            · exact Or.inl hc
            · simp only [List.mem_singleton] at hp
              omega
          · omega
        | some v =>
          simp only [pgLoopT, hi, ite_true, if_pos rfl, hparse] at h
          rcases ih _ _ _ _ _ _ h q hq with hin | hge
          · rcases List.mem_append.mp hin with hc | hp
            · exact Or.inl hc
            · simp only [List.mem_singleton] at hp
              omega
          · omega
      · cases hparse : parsePrice row.price with
        | none =>
          simp only [pgLoopT, hi, ite_false, if_neg hi, hparse] at h
          rcases ih _ _ _ _ _ _ h q hq with hin | hge
          · exact Or.inl hin
          · omega
        | some v =>
          simp only [pgLoopT, hi, ite_false, if_neg hi, hparse] at h
          rcases ih _ _ _ _ _ _ h q hq with hin | hge
          · exact Or.inl hin
          · omega

lemma countParsed_lt_of_malformed (rows : List CoffeeRow)
    (h : ∃ r ∈ rows, parsePrice r.price = none) : countParsed rows < rows.length := by
  obtain ⟨r, hmem, hr⟩ := h
  refine List.length_filter_lt_length_iff_exists.mpr ⟨r, hmem, ?_⟩
  simp [hr]

/-- Running the instrumented loop through a leading block of scanned
rows: the counter advances by the number of parsed rows, the position
by the block length, and every new capture lies inside the block. -/
lemma pgLoopT_front : ∀ (pre : List CoffeeRow) (rest : List (Except String CoffeeRow))
    (result : DDDBondPayload) (i pos : Nat) (caps : List Nat),
    ∃ result1 caps1,
      pgLoopT (pre.map Except.ok ++ rest) result i pos caps =
        pgLoopT rest result1 (i + countParsed pre) (pos + pre.length) caps1 ∧
      ∀ q ∈ caps1, q ∈ caps ∨ (pos ≤ q ∧ q < pos + pre.length) := by
  intro pre
  induction pre with
  | nil =>
    intro rest result i pos caps
    refine ⟨result, caps, ?_, fun q hq => Or.inl hq⟩
    simp [countParsed]
  | cons r pre ih =>
    intro rest result i pos caps
    have hcc : countParsed (r :: pre) = (if (parsePrice r.price).isSome then 1 else 0) + countParsed pre :=
      countParsed_cons r pre
    cases hparse : parsePrice r.price with
    | none =>
      obtain ⟨result1, caps1, heq, hmem⟩ := ih rest
        (if i = 50 then { result with magicCoffee := r.name } else result) i (pos + 1)
        (if i = 50 then caps ++ [pos] else caps)
      refine ⟨result1, caps1, ?_, ?_⟩
      · simp only [List.map_cons, List.cons_append, List.append_eq, pgLoopT, hparse]
        rw [heq, hcc, hparse]
        have h1 : i + (0 + countParsed pre) = i + countParsed pre := by omega
        have h2 : pos + 1 + pre.length = pos + (r :: pre).length := by simp [List.length_cons]; omega
        simp only [Option.isSome_none, Bool.false_eq_true, if_false, ite_false, h1]
        rw [h2]
      · intro q hq
        rcases hmem q hq with hin | hrange
        · by_cases hi : i = 50
          · rw [if_pos hi] at hin
            rcases List.mem_append.mp hin with hc | hp
            · exact Or.inl hc
            · simp only [List.mem_singleton] at hp
              right
              constructor <;> simp [hp, List.length_cons]
          · rw [if_neg hi] at hin
            exact Or.inl hin
        · right
          simp only [List.length_cons]
          omega
    | some v =>
      obtain ⟨result1, caps1, heq, hmem⟩ := ih rest
        { (if i = 50 then { result with magicCoffee := r.name } else result) with
          total := int64Wrap ((if i = 50 then { result with magicCoffee := r.name } else result).total + v) }
        (i + 1) (pos + 1) (if i = 50 then caps ++ [pos] else caps)
      refine ⟨result1, caps1, ?_, ?_⟩
      · simp only [List.map_cons, List.cons_append, List.append_eq, pgLoopT, hparse]
        rw [heq, hcc, hparse]
        have h1 : i + 1 + countParsed pre = i + ((if (some v : Option Int).isSome then 1 else 0) + countParsed pre) := by
          simp
          omega
        have h2 : pos + 1 + pre.length = pos + (r :: pre).length := by simp [List.length_cons]; omega
        rw [h2, ← h1]
      · intro q hq
        rcases hmem q hq with hin | hrange
        · by_cases hi : i = 50
          · rw [if_pos hi] at hin
            rcases List.mem_append.mp hin with hc | hp
            · exact Or.inl hc
            · simp only [List.mem_singleton] at hp
              right
              constructor <;> simp [hp, List.length_cons]
          · rw [if_neg hi] at hin
            exact Or.inl hin
        · right
          simp only [List.length_cons]
          omega

/-- C8 counterexample: 51 scanned rows, rows 0-49 parseable and the
last row (the 51st returned, position 50) unparseable: the counter
reaches 50 exactly at position 50, so the sentinel IS captured from
the 51st returned row (capture trace `[50]`, sentinel `"Z"`), although
a row among the first 51 has an unparseable price. -/
theorem pg_counter_parse_only_cx :
    pgCx8Rows.length = 51 ∧
    pgCx8Rows.get? 50 = some (Except.ok ⟨50, "Z", "x"⟩) ∧
    parsePrice "x" = none ∧
    pgLoopT pgCx8Rows {} 0 0 [] = Except.ok (⟨"Z", 50, "", ""⟩, [50]) := by
  refine ⟨by rfl, by rfl, by rfl, by rfl⟩

/-- C8 (amended): the Postgres counter advances only on rows whose
price parses; if a row among the first 50 returned is unparseable, the
row at position 50 (the 51st returned) is never captured as sentinel;
and a parse failure on the row processed at counter value 50 leaves
the counter at 50, so the immediately following scanned row is also
captured, overwriting the sentinel. -/
theorem pg_counter_parse_only_amended :
    (∀ (rows : List CoffeeRow) (rest : List (Except String CoffeeRow))
      (result : DDDBondPayload) (i : Nat),
      ∃ result1, pgLoop (rows.map Except.ok ++ rest) result i =
        pgLoop rest result1 (i + countParsed rows)) ∧
    (∀ (pre : List CoffeeRow) (s : CoffeeRow) (rest : List (Except String CoffeeRow))
      (p : DDDBondPayload) (caps : List Nat),
      pre.length = 50 → (∃ r ∈ pre, parsePrice r.price = none) →
      pgLoopT (pre.map Except.ok ++ Except.ok s :: rest) {} 0 0 [] = Except.ok (p, caps) →
      50 ∉ caps) ∧
    (∀ (r1 r2 : CoffeeRow) (rest : List (Except String CoffeeRow)) (result : DDDBondPayload)
      (pos : Nat) (caps : List Nat) (p : DDDBondPayload) (cs : List Nat),
      parsePrice r1.price = none →
      pgLoopT (Except.ok r1 :: Except.ok r2 :: rest) result 50 pos caps = Except.ok (p, cs) →
      pos ∈ cs ∧ pos + 1 ∈ cs) := by
  refine ⟨pg_front, ?_, ?_⟩
  · intro pre s rest p caps hlen hex heq
    obtain ⟨r1, c1, hfront, hmem⟩ := pgLoopT_front pre (Except.ok s :: rest) {} 0 0 []
    rw [hfront] at heq
    have hc50 : countParsed pre < 50 := by
      have := countParsed_lt_of_malformed pre hex
      omega
    have hne : 0 + countParsed pre ≠ 50 := by omega
    have hmem1 : ∀ q ∈ c1, q < 50 := by
      intro q hq
      rcases hmem q hq with hin | hrange
      · simp at hin
      · rw [hlen] at hrange
        omega
    intro h50
    cases hparse : parsePrice s.price with
    | none =>
      simp only [pgLoopT, if_neg hne, ite_false, hparse] at heq
      rcases pgLoopT_caps_ge _ _ _ _ _ _ _ heq 50 h50 with hin | hge
      · exact absurd (hmem1 50 hin) (by omega)
      · rw [hlen] at hge
        omega
    | some v =>
      simp only [pgLoopT, if_neg hne, ite_false, hparse] at heq
      rcases pgLoopT_caps_ge _ _ _ _ _ _ _ heq 50 h50 with hin | hge
      · exact absurd (hmem1 50 hin) (by omega)
      · rw [hlen] at hge
        omega
  · intro r1 r2 rest result pos caps p cs hparse heq
    simp only [pgLoopT, if_pos rfl, ite_true, hparse] at heq
    cases hparse2 : parsePrice r2.price with
    | none =>
      rw [hparse2] at heq
      have hsub := pgLoopT_caps_sub _ _ _ _ _ _ _ heq
      constructor
      · exact hsub pos (by simp)
      · exact hsub (pos + 1) (by simp)
    | some v =>
      rw [hparse2] at heq
      have hsub := pgLoopT_caps_sub _ _ _ _ _ _ _ heq
      constructor
      · exact hsub pos (by simp)
      · exact hsub (pos + 1) (by simp)

/-- Witness for C8's amended theorem: 50 leading rows with one
unparseable price give an empty capture trace (no capture at position
50), and a parse failure at counter 50 makes both position 7 and
position 8 captured in a concrete two-row run. -/
theorem pg_counter_parse_only_amended_witness :
    (50 ∉ ([] : List Nat)) ∧ (7 ∈ [7, 8] ∧ 8 ∈ [7, 8]) := by
  constructor
  · refine pg_counter_parse_only_amended.2.1
      ((List.range 50).map (fun k : Nat => (⟨(k : Int), "", if k = 0 then "x" else "1"⟩ : CoffeeRow)))
      ⟨50, "A", "1"⟩ [] ⟨"", 50, "", ""⟩ []
      (by rw [List.length_map, List.length_range]) ?_ (by rfl)
    refine ⟨⟨0, "", "x"⟩, List.mem_map.mpr ⟨0, List.mem_range.mpr (by omega), by rfl⟩, by rfl⟩
  · exact pg_counter_parse_only_amended.2.2 ⟨0, "P", "x"⟩ ⟨1, "Q", "1"⟩ [] {} 7 []
      ⟨"Q", 1, "", ""⟩ [7, 8] (by rfl) (by rfl)
